import Mathlib

/-!
Shallow embedding of the time-range selection and transcoder-orchestration
logic of `media-processing/media_cutter.py`, together with theorems checking
the specification's claims against it.

Python floats are modelled as exact rationals (`ℚ`), Python ints as `ℤ`/`ℕ`,
and Python strings as `String`/`List Char`.  Python's `str.split(sep)`,
`str.split()`, f-string zero padding and `int(...)` parsing are embedded as
executable Lean functions below.
-/

/-- The character for the decimal digit `n` (`0 ≤ n ≤ 9`). -/
def digitChar (n : Nat) : Char := Char.ofNat (48 + n)

/-- Fuel-driven helper for `natDigits`; structural recursion on the fuel so
that the kernel can evaluate it. -/
def natDigitsAux : Nat → Nat → List Char
  | 0, _ => []
  | fuel + 1, n =>
    if n < 10 then [digitChar n]
    else natDigitsAux fuel (n / 10) ++ [digitChar (n % 10)]

/-- Decimal digit list of a natural number, most significant first
(the digits produced by Python's `str`/format for a non-negative int). -/
def natDigits (n : Nat) : List Char := natDigitsAux (n + 1) n

/-- Value of a decimal digit character, `none` on non-digits. -/
def charDigit? (c : Char) : Option Nat :=
  if 48 ≤ c.toNat ∧ c.toNat ≤ 57 then some (c.toNat - 48) else none

/-- Accumulating decimal parser over a digit list; fails on any non-digit. -/
def parseDigitsAux : List Char → Nat → Option Nat
  | [], acc => some acc
  | c :: cs, acc =>
    match charDigit? c with
    | some d => parseDigitsAux cs (acc * 10 + d)
    | none => none

/-- Parse a non-empty all-digit string as a natural number
(the digit part of Python's `int(...)`). -/
def parseNatDigits (l : List Char) : Option Nat :=
  if l.isEmpty then none else parseDigitsAux l 0

/-- Python's `int(text)`: an optional sign followed by decimal digits;
any other input raises, modelled as `none`. -/
def parseInt (l : List Char) : Option Int :=
  match l with
  | [] => none
  | c :: rest =>
    if c = '-' then (parseNatDigits rest).map (fun n => -(n : Int))
    else if c = '+' then (parseNatDigits rest).map (fun n => (n : Int))
    else (parseNatDigits (c :: rest)).map (fun n => (n : Int))

/-- Pad a list on the left with `c` up to width `w`. -/
def leftPad (w : Nat) (c : Char) (l : List Char) : List Char :=
  List.replicate (w - l.length) c ++ l

/-- Python's zero-padded int format `f"{m:0w}"`: the sign (if any) followed
by the digits, zero-padded on the left to total width `w`. -/
def fmt0 (w : Nat) (m : Int) : List Char :=
  if m < 0 then '-' :: leftPad (w - 1) '0' (natDigits m.natAbs)
  else leftPad w '0' (natDigits m.toNat)

/-- Python's `int(q)` on a float value: truncation toward zero,
exact on our rational model of floats. -/
def pyTrunc (q : ℚ) : Int := q.num.tdiv q.den

/-- `media_cutter.py` lines 40-41: `f"{millisec:03}"[:3]` — the clamp of the
parsed fractional field to its first three characters. -/
def millisecClamp (m : Int) : List Char := (fmt0 3 m).take 3

/-- Python's `text.split(sep)` for a one-character separator: all fields,
empty fields kept. -/
def splitOnChar (sep : Char) : List Char → List (List Char)
  | [] => [[]]
  | c :: cs =>
    if c = sep then [] :: splitOnChar sep cs
    else
      match splitOnChar sep cs with
      | [] => [[c]]
      | h :: t => (c :: h) :: t

/-- `parse_time` (lines 28-47), field extraction: splits on `:`, requires
exactly three fields, parses hour, minute, and second fields, splits the
second field on `.`, parses the optional fractional field (defaulting to 0),
and clamps it via `millisecClamp`.  Any parse failure yields `none`
(the Python `except` branch returning `None`). -/
def parse_fields (s : List Char) : Option (Int × Int × Int × Int) := do
  match splitOnChar ':' s with
  | [p0, p1, p2] =>
    let hrs ← parseInt p0
    let mins ← parseInt p1
    let sec_parts := splitOnChar '.' p2
    let secs ← parseInt sec_parts.headI
    let millisec0 ← if 1 < sec_parts.length then parseInt (sec_parts.get! 1) else some 0
    let millisec ← parseInt (millisecClamp millisec0)
    pure (hrs, mins, secs, millisec)
  | _ => none

/-- `parse_time` (lines 28-47): `hrs * 3600 + mins * 60 + secs + millisec / 1000.0`
over the extracted fields. -/
def parse_timeL (s : List Char) : Option ℚ :=
  (parse_fields s).map fun f =>
    ((f.1 * 3600 + f.2.1 * 60 + f.2.2.1 : Int) : ℚ) + (f.2.2.2 : ℚ) / 1000

/-- `parse_time` on a Lean string. -/
def parse_time (s : String) : Option ℚ := parse_timeL s.data

/-- `format_time` (lines 17-26): negative (or missing) input yields the zero
string; otherwise milliseconds are truncated from the fractional part and the
fields are rendered as `HH:MM:SS.mmm` with Python's `//` and `%` (floor
division and modulo, `Int.fdiv`/`Int.fmod`). -/
def format_timeL (seconds : ℚ) : List Char :=
  if seconds < 0 then ("00:00:00.000").data
  else
    let millisec : Int := pyTrunc ((seconds - (pyTrunc seconds : ℚ)) * 1000)
    let total_seconds : Int := pyTrunc seconds
    let hrs : Int := total_seconds.fdiv 3600
    let mins : Int := (total_seconds.fmod 3600).fdiv 60
    let secs : Int := total_seconds.fmod 60
    fmt0 2 hrs ++ ':' :: fmt0 2 mins ++ ':' :: fmt0 2 secs ++ '.' :: fmt0 3 millisec

/-- `format_time` producing a Lean string. -/
def format_time (seconds : ℚ) : String := ⟨format_timeL seconds⟩


/-! ### Range state (`MediaCutterApp` time-selection fields) -/

/-- The time-selection state owned by `MediaCutterApp`:
`duration_seconds`, `start_seconds`, `end_seconds`. -/
structure RangeState where
  duration_seconds : ℚ
  start_seconds : ℚ
  end_seconds : ℚ

/-- `load_media_info` (lines 503-541), success branch: once a duration is
known the state is reset to `start = 0`, `end = duration`. -/
def init_range_state (duration : ℚ) : RangeState :=
  { duration_seconds := duration, start_seconds := 0, end_seconds := duration }

/-- `update_start_time_from_slider` (lines 584-595): stores the slider value
as the new start; if it is ≥ the current end, it is pulled to `end - 0.001`,
and to `0` if that is negative.  The slider value is not otherwise clamped. -/
def update_start_time_from_slider (st : RangeState) (value : ℚ) : RangeState :=
  let s0 := value
  let s1 :=
    if s0 ≥ st.end_seconds then
      let s := st.end_seconds - 0.001
      if s < 0 then 0 else s
    else s0
  { st with start_seconds := s1 }

/-- `update_end_time_from_slider` (lines 597-608): stores the slider value as
the new end; if it is ≤ the current start, it is pushed to `start + 0.001`,
capped at the media duration. -/
def update_end_time_from_slider (st : RangeState) (value : ℚ) : RangeState :=
  let e0 := value
  let e1 :=
    if e0 ≤ st.start_seconds then
      let e := st.start_seconds + 0.001
      if e > st.duration_seconds then st.duration_seconds else e
    else e0
  { st with end_seconds := e1 }

/-- `update_times_from_entry` (lines 610-648): each entry is parsed with
`parse_time`; a value is accepted only if it parses and lies in
`[0, duration_seconds]`, otherwise that bound keeps its previous value (the
entry widget is reset to the old formatted value).  The two bounds are
handled independently; no ordering between them is enforced here. -/
def update_times_from_entry (st : RangeState) (start_str end_str : String) : RangeState :=
  let new_start := parse_time start_str
  let new_end := parse_time end_str
  let st1 :=
    match new_start with
    | some ns =>
      if 0 ≤ ns ∧ ns ≤ st.duration_seconds then { st with start_seconds := ns } else st
    | none => st
  match new_end with
  | some ne =>
    if 0 ≤ ne ∧ ne ≤ st1.duration_seconds then { st1 with end_seconds := ne } else st1
  | none => st1

/-- The range invariant of the specification:
`0 ≤ start < end ≤ mediaDuration`. -/
def rangeInv (st : RangeState) : Prop :=
  0 ≤ st.start_seconds ∧ st.start_seconds < st.end_seconds ∧
    st.end_seconds ≤ st.duration_seconds

/-- `validate_inputs` (lines 650-674), range-checking portion (lines 662-672):
start must be strictly before end, and the range must lie inside the media
duration; each failure carries its own message.  (The input/output-path
existence checks and the entry re-synchronisation earlier in the function are
filesystem/UI effects outside this embedding.) -/
def validate_inputs (st : RangeState) : Except String Unit :=
  if st.start_seconds ≥ st.end_seconds then
    Except.error ("Start time (" ++ format_time st.start_seconds ++
      ") must be before end time (" ++ format_time st.end_seconds ++ ").")
  else if st.start_seconds < 0 ∨ st.end_seconds > st.duration_seconds then
    Except.error "Start or end time is outside the media duration."
  else Except.ok ()

/-! ### Cut executor (`run_ffmpeg_cut`) -/

/-- One token of an external command line: a literal string or a numeric
argument (rendered by Python's `str(...)` at the boundary). -/
inductive CmdTok where
  | str (s : String)
  | num (q : ℚ)
deriving DecidableEq

/-- `run_ffmpeg_cut` (lines 449-460): the single command handed to the
subprocess module.  `-ss`/`-t` are placed after `-i <input>`; the video/audio
codecs depend on the output extension; CRF is `31 - quality * 0.3`. -/
def ffmpeg_cut_command (input_path output_path : String) (start_time end_time : ℚ)
    (quality : ℤ) : List CmdTok :=
  let duration := end_time - start_time
  let lowerOut := output_path.data.map Char.toLower
  let isMp4OrMkv :=
    List.isSuffixOf (".mp4").data lowerOut || List.isSuffixOf (".mkv").data lowerOut
  [CmdTok.str "ffmpeg", CmdTok.str "-y",
   CmdTok.str "-i", CmdTok.str input_path,
   CmdTok.str "-ss", CmdTok.num start_time,
   CmdTok.str "-t", CmdTok.num duration,
   CmdTok.str "-c:v", CmdTok.str (if isMp4OrMkv then "libx264" else "copy"),
   CmdTok.str "-crf", CmdTok.num (31 - (quality : ℚ) * 0.3),
   CmdTok.str "-c:a", CmdTok.str (if isMp4OrMkv then "aac" else "copy"),
   CmdTok.str output_path]

/-- Observable behaviour of one `run_ffmpeg_cut` call: the external commands
spawned, in order, and the normal/raising outcome. -/
structure ExecTrace where
  spawned : List (List CmdTok)
  outcome : Except String Unit

/-- `run_ffmpeg_cut` (lines 444-480): exactly one process is spawned; after
the progress loop, a non-zero `returncode` (the `exit_code` argument models
it) raises `Exception("FFmpeg process failed")`, a zero one returns normally.
No second command is ever constructed. -/
def run_ffmpeg_cut (input_path output_path : String) (start_time end_time : ℚ)
    (quality : ℤ) (exit_code : ℤ) : ExecTrace :=
  { spawned := [ffmpeg_cut_command input_path output_path start_time end_time quality],
    outcome :=
      if exit_code ≠ 0 then Except.error "FFmpeg process failed" else Except.ok () }

/-! ### Progress parsing (`run_ffmpeg_cut` stderr loop, lines 468-477) -/

/-- Python's whitespace test for `str.split()`. -/
def isWs (c : Char) : Bool :=
  c = ' ' || c = '\t' || c = '\n' || c = '\r' || c = '\x0b' || c = '\x0c'

/-- First whitespace-delimited token: Python's `text.split()[0]`.  (When the
text holds no token Python raises `IndexError`; that case is modelled as the
empty token, which fails the subsequent parse.) -/
def firstWsToken (l : List Char) : List Char :=
  (l.dropWhile (fun c => isWs c)).takeWhile (fun c => !isWs c)

/-- Python's `sep in text` substring test. -/
def hasSubstr (sep : List Char) : List Char → Bool
  | [] => sep.isEmpty
  | c :: cs => sep.isPrefixOf (c :: cs) || hasSubstr sep cs

/-- Fuel-driven helper for `splitOnList`; the fuel bounds the scan length so
the recursion is structural and kernel-evaluable. -/
def splitOnListAux (sep : List Char) : Nat → List Char → List (List Char)
  | _, [] => [[]]
  | 0, l => [l]
  | fuel + 1, c :: cs =>
    if sep.isPrefixOf (c :: cs) then
      [] :: splitOnListAux sep fuel ((c :: cs).drop sep.length)
    else
      match splitOnListAux sep fuel cs with
      | [] => [[c]]
      | h :: t => (c :: h) :: t

/-- Python's `text.split(sep)` for a non-empty separator string. -/
def splitOnList (sep l : List Char) : List (List Char) :=
  splitOnListAux sep l.length l

/-- The body of the stderr loop (lines 472-477) for one line: if the line
contains `time=`, the text between the first `time=` and the next whitespace
is parsed with `parse_time`; on success the fraction
`(current_time - start_time) / duration` is clamped to `[0, 1]` and set as
the progress value.  A line without the token, or an unparsable token,
produces no update. -/
def progress_update (start_time duration : ℚ) (line : List Char) : Option ℚ :=
  if hasSubstr ("time=").data line then
    let time_str := firstWsToken ((splitOnList ("time=").data line).get! 1)
    match parse_timeL time_str with
    | some current_time =>
      some (min 1 (max 0 ((current_time - start_time) / duration)))
    | none => none
  else none

/-! ### Digit and parsing lemmas -/

theorem charDigit_digitChar {d : Nat} (hd : d < 10) :
    charDigit? (digitChar d) = some d := by
  interval_cases d <;> decide

theorem digitChar_bounds {d : Nat} (hd : d < 10) :
    48 ≤ (digitChar d).toNat ∧ (digitChar d).toNat ≤ 57 := by
  interval_cases d <;> decide

theorem natDigitsAux_bounds :
    ∀ fuel n c, c ∈ natDigitsAux fuel n → 48 ≤ c.toNat ∧ c.toNat ≤ 57 := by
  intro fuel
  induction fuel with
  | zero => intro n c hc; simp [natDigitsAux] at hc
  | succ f ih =>
    intro n c hc
    rw [natDigitsAux] at hc
    by_cases h : n < 10
    · rw [if_pos h] at hc
      simp at hc
      exact hc ▸ digitChar_bounds h
    · rw [if_neg h] at hc
      rcases List.mem_append.mp hc with h1 | h2
      · exact ih _ _ h1
      · simp at h2
        exact h2 ▸ digitChar_bounds (Nat.mod_lt _ (by omega))

theorem natDigits_bounds {n : Nat} {c : Char} (hc : c ∈ natDigits n) :
    48 ≤ c.toNat ∧ c.toNat ≤ 57 :=
  natDigitsAux_bounds _ _ _ hc

theorem natDigitsAux_ne_nil {fuel n : Nat} (h : 0 < fuel) :
    natDigitsAux fuel n ≠ [] := by
  cases fuel with
  | zero => omega
  | succ f =>
    rw [natDigitsAux]
    by_cases hn : n < 10
    · rw [if_pos hn]; simp
    · rw [if_neg hn]; simp

theorem natDigitsAux_length_le :
    ∀ fuel n, n < 10 ^ fuel → (natDigitsAux fuel n).length ≤ fuel := by
  intro fuel
  induction fuel with
  | zero => intro n h; simp [natDigitsAux]
  | succ f ih =>
    intro n h
    rw [natDigitsAux]
    by_cases hn : n < 10
    · rw [if_pos hn]; simp
    · rw [if_neg hn]
      have hdiv : n / 10 < 10 ^ f := by
        rw [pow_succ, mul_comm] at h
        exact Nat.div_lt_of_lt_mul h
      simp [ih _ hdiv]

theorem parseDigitsAux_append (l1 l2 : List Char) :
    ∀ acc, parseDigitsAux (l1 ++ l2) acc =
      (parseDigitsAux l1 acc).bind (fun a => parseDigitsAux l2 a) := by
  induction l1 with
  | nil => intro acc; simp [parseDigitsAux]
  | cons c cs ih =>
    intro acc
    simp only [List.cons_append, parseDigitsAux]
    cases charDigit? c with
    | some d => exact ih _
    | none => simp

theorem parseDigitsAux_natDigitsAux :
    ∀ fuel n acc, 0 < fuel → n < 10 ^ fuel →
      parseDigitsAux (natDigitsAux fuel n) acc =
        some (acc * 10 ^ (natDigitsAux fuel n).length + n) := by
  intro fuel
  induction fuel with
  | zero => intro n acc h; omega
  | succ f ih =>
    intro n acc _ hn
    rw [natDigitsAux]
    by_cases h10 : n < 10
    · rw [if_pos h10]
      simp [parseDigitsAux, charDigit_digitChar h10]
    · rw [if_neg h10]
      have hf : 0 < f := by
        rcases Nat.eq_zero_or_pos f with h0 | h0
        · subst h0; simp at hn; omega
        · exact h0
      have hdiv : n / 10 < 10 ^ f := by
        rw [pow_succ, mul_comm] at hn
        exact Nat.div_lt_of_lt_mul hn
      rw [parseDigitsAux_append]
      rw [ih _ acc hf hdiv]
      have hmod : n % 10 < 10 := Nat.mod_lt _ (by omega)
      simp only [Option.bind, parseDigitsAux, charDigit_digitChar hmod,
        List.length_append, List.length_cons, List.length_nil]
      congr 1
      have h2 : n / 10 * 10 + n % 10 = n := by omega
      have h1 : (acc * 10 ^ (natDigitsAux f (n / 10)).length + n / 10) * 10 + n % 10
          = acc * (10 ^ (natDigitsAux f (n / 10)).length * 10) + (n / 10 * 10 + n % 10) := by
        ring
      rw [h1, h2, ← pow_succ]

theorem parseDigitsAux_replicate_zero :
    ∀ j acc, parseDigitsAux (List.replicate j '0') acc = some (acc * 10 ^ j) := by
  intro j
  induction j with
  | zero => intro acc; simp [parseDigitsAux]
  | succ i ih =>
    intro acc
    have h0 : charDigit? '0' = some 0 := by decide
    simp only [List.replicate, parseDigitsAux, h0]
    rw [ih]
    congr 1
    ring

theorem parseNatDigits_leftPad (w n : Nat) :
    parseNatDigits (leftPad w '0' (natDigits n)) = some n := by
  have hne : natDigits n ≠ [] := natDigitsAux_ne_nil (by omega)
  have hfuel : 0 < n + 1 := by omega
  have hlt : n < 10 ^ (n + 1) := by
    calc n < 10 ^ n := Nat.lt_pow_self (by omega) n
    _ ≤ 10 ^ (n + 1) := Nat.pow_le_pow_right (by omega) (by omega)
  have hne2 : ¬ ((leftPad w '0' (natDigits n)).isEmpty = true) := by
    rw [List.isEmpty_iff]
    intro h
    rcases List.append_eq_nil.mp h with ⟨_, h2⟩
    exact hne h2
  rw [parseNatDigits, if_neg hne2, leftPad]
  rw [parseDigitsAux_append, parseDigitsAux_replicate_zero]
  simp only [Option.bind, natDigits]
  rw [parseDigitsAux_natDigitsAux _ _ _ hfuel hlt]
  simp

theorem char_ne_of_toNat {c d : Char} (h : c.toNat ≠ d.toNat) : c ≠ d :=
  fun hc => h (congrArg Char.toNat hc)

theorem parseInt_of_digits (l : List Char)
    (hl : l ≠ []) (hd : ∀ c ∈ l, 48 ≤ c.toNat ∧ c.toNat ≤ 57) :
    parseInt l = (parseNatDigits l).map (fun n => (n : Int)) := by
  cases l with
  | nil => exact absurd rfl hl
  | cons c rest =>
    have hc := hd c (List.mem_cons_self _ _)
    have hminus : c ≠ '-' := char_ne_of_toNat (by
      have : ('-').toNat = 45 := by decide
      omega)
    have hplus : c ≠ '+' := char_ne_of_toNat (by
      have : ('+').toNat = 43 := by decide
      omega)
    rw [parseInt, if_neg hminus, if_neg hplus]

theorem leftPad_digit_bounds {w n : Nat} {c : Char}
    (hc : c ∈ leftPad w '0' (natDigits n)) : 48 ≤ c.toNat ∧ c.toNat ≤ 57 := by
  rw [leftPad] at hc
  rcases List.mem_append.mp hc with h1 | h2
  · have := List.eq_of_mem_replicate h1
    subst this
    decide
  · exact natDigits_bounds h2

theorem leftPad_ne_nil {w n : Nat} : leftPad w '0' (natDigits n) ≠ [] := by
  rw [leftPad]
  intro h
  exact natDigitsAux_ne_nil (by omega) (List.append_eq_nil.mp h).2

theorem parseInt_leftPad (w n : Nat) :
    parseInt (leftPad w '0' (natDigits n)) = some (n : Int) := by
  rw [parseInt_of_digits _ leftPad_ne_nil (fun c hc => leftPad_digit_bounds hc)]
  rw [parseNatDigits_leftPad]
  rfl

theorem fmt0_ofNat (w n : Nat) : fmt0 w (n : Int) = leftPad w '0' (natDigits n) := by
  rw [fmt0, if_neg (by omega)]
  norm_num

theorem parseInt_fmt0 (w n : Nat) : parseInt (fmt0 w (n : Int)) = some (n : Int) := by
  rw [fmt0_ofNat, parseInt_leftPad]

theorem fmt0_ofNat_bounds {w n : Nat} {c : Char} (hc : c ∈ fmt0 w (n : Int)) :
    48 ≤ c.toNat ∧ c.toNat ≤ 57 := by
  rw [fmt0_ofNat] at hc
  exact leftPad_digit_bounds hc

/-! ### splitOnChar lemmas -/

theorem splitOnChar_of_not_mem {sep : Char} :
    ∀ {l : List Char}, (∀ c ∈ l, c ≠ sep) → splitOnChar sep l = [l] := by
  intro l
  induction l with
  | nil => intro _; rfl
  | cons c cs ih =>
    intro h
    rw [splitOnChar, if_neg (h c (List.mem_cons_self _ _))]
    rw [ih (fun x hx => h x (List.mem_cons_of_mem _ hx))]

theorem splitOnChar_append_sep {sep : Char} :
    ∀ {pre rest : List Char}, (∀ c ∈ pre, c ≠ sep) →
      splitOnChar sep (pre ++ sep :: rest) = pre :: splitOnChar sep rest := by
  intro pre
  induction pre with
  | nil =>
    intro rest _
    simp [splitOnChar]
  | cons c cs ih =>
    intro rest h
    rw [List.cons_append, splitOnChar, if_neg (h c (List.mem_cons_self _ _))]
    rw [ih (fun x hx => h x (List.mem_cons_of_mem _ hx))]

/-! ### pyTrunc lemmas -/

theorem pyTrunc_eq_floor {q : ℚ} (hq : 0 ≤ q) : pyTrunc q = ⌊q⌋ := by
  rw [pyTrunc, Rat.floor_def]
  exact Int.tdiv_eq_ediv (Rat.num_nonneg.mpr hq) (by positivity)

theorem pyTrunc_natCast (n : ℕ) : pyTrunc (n : ℚ) = (n : ℤ) := by
  rw [pyTrunc]
  rw [Rat.num_natCast, Rat.den_natCast]
  simp [Int.tdiv_one]

theorem pyTrunc_add_div_1000 (a b : ℕ) (hb : b < 1000) :
    pyTrunc ((a : ℚ) + (b : ℚ) / 1000) = (a : ℤ) := by
  rw [pyTrunc_eq_floor (by positivity)]
  rw [add_comm, Int.floor_add_nat]
  have h1000 : ((1000 : ℕ) : ℚ) = 1000 := by norm_num
  rw [← h1000, Rat.floor_natCast_div_natCast]
  omega


theorem natDigitsAux_fuel_irrel :
    ∀ f1 f2 n, 0 < f1 → 0 < f2 → n < 10 ^ f1 → n < 10 ^ f2 →
      natDigitsAux f1 n = natDigitsAux f2 n := by
  intro f1
  induction f1 with
  | zero => intro f2 n h1; omega
  | succ g1 ih =>
    intro f2 n _ h2 hn1 hn2
    cases f2 with
    | zero => omega
    | succ g2 =>
      rw [natDigitsAux, natDigitsAux]
      by_cases h10 : n < 10
      · rw [if_pos h10, if_pos h10]
      · rw [if_neg h10, if_neg h10]
        have hg1 : 0 < g1 := by
          rcases Nat.eq_zero_or_pos g1 with h0 | h0
          · subst h0; simp at hn1; omega
          · exact h0
        have hg2 : 0 < g2 := by
          rcases Nat.eq_zero_or_pos g2 with h0 | h0
          · subst h0; simp at hn2; omega
          · exact h0
        have hd1 : n / 10 < 10 ^ g1 := by
          rw [pow_succ, mul_comm] at hn1
          exact Nat.div_lt_of_lt_mul hn1
        have hd2 : n / 10 < 10 ^ g2 := by
          rw [pow_succ, mul_comm] at hn2
          exact Nat.div_lt_of_lt_mul hn2
        rw [ih g2 (n / 10) hg1 hg2 hd1 hd2]

theorem int_fdiv_cast_3600 (m : Nat) :
    Int.fdiv (m : Int) 3600 = ((m / 3600 : Nat) : Int) := by
  rw [Int.fdiv_eq_ediv _ (by norm_num)]
  omega

theorem int_fmod_cast_3600 (m : Nat) :
    Int.fmod (m : Int) 3600 = ((m % 3600 : Nat) : Int) := by
  rw [Int.fmod_eq_emod _ (by norm_num)]
  omega

theorem int_fdiv_cast_60 (m : Nat) :
    Int.fdiv (m : Int) 60 = ((m / 60 : Nat) : Int) := by
  rw [Int.fdiv_eq_ediv _ (by norm_num)]
  omega

theorem int_fmod_cast_60 (m : Nat) :
    Int.fmod (m : Int) 60 = ((m % 60 : Nat) : Int) := by
  rw [Int.fmod_eq_emod _ (by norm_num)]
  omega

theorem natDigits_length_le {n k : Nat} (hk : 0 < k) (h : n < 10 ^ k) :
    (natDigits n).length ≤ k := by
  have hlt : n < 10 ^ (n + 1) := by
    calc n < 10 ^ n := Nat.lt_pow_self (by omega) n
    _ ≤ 10 ^ (n + 1) := Nat.pow_le_pow_right (by omega) (by omega)
  rw [natDigits, natDigitsAux_fuel_irrel (n + 1) k n (by omega) hk hlt h]
  exact natDigitsAux_length_le k n h

theorem millisecClamp_small {ms : Nat} (hms : ms < 1000) :
    millisecClamp (ms : Int) = leftPad 3 '0' (natDigits ms) := by
  rw [millisecClamp, fmt0_ofNat]
  have hd : (natDigits ms).length ≤ 3 :=
    natDigits_length_le (by omega) (by norm_num; omega)
  have hlen : (leftPad 3 '0' (natDigits ms)).length ≤ 3 := by
    rw [leftPad]
    simp
    omega
  exact List.take_of_length_le hlen

theorem digit_ne_colon {c : Char} (h : 48 ≤ c.toNat ∧ c.toNat ≤ 57) : c ≠ ':' :=
  char_ne_of_toNat (by
    have : (':').toNat = 58 := by decide
    omega)

theorem digit_ne_dot {c : Char} (h : 48 ≤ c.toNat ∧ c.toNat ≤ 57) : c ≠ '.' :=
  char_ne_of_toNat (by
    have : ('.').toNat = 46 := by decide
    omega)

theorem parse_fields_display (h m s ms : Nat) (hms : ms < 1000) :
    parse_fields (fmt0 2 (h : Int) ++ ':' :: (fmt0 2 (m : Int) ++ ':' ::
        (fmt0 2 (s : Int) ++ '.' :: fmt0 3 (ms : Int))))
      = some ((h : Int), (m : Int), (s : Int), (ms : Int)) := by
  have hsplit1 : splitOnChar ':' (fmt0 2 (h : Int) ++ ':' :: (fmt0 2 (m : Int) ++ ':' ::
      (fmt0 2 (s : Int) ++ '.' :: fmt0 3 (ms : Int))))
      = fmt0 2 (h : Int) :: splitOnChar ':' (fmt0 2 (m : Int) ++ ':' ::
        (fmt0 2 (s : Int) ++ '.' :: fmt0 3 (ms : Int))) :=
    splitOnChar_append_sep (fun c hc => digit_ne_colon (fmt0_ofNat_bounds hc))
  have hsplit2 : splitOnChar ':' (fmt0 2 (m : Int) ++ ':' ::
      (fmt0 2 (s : Int) ++ '.' :: fmt0 3 (ms : Int)))
      = fmt0 2 (m : Int) :: splitOnChar ':' (fmt0 2 (s : Int) ++ '.' :: fmt0 3 (ms : Int)) :=
    splitOnChar_append_sep (fun c hc => digit_ne_colon (fmt0_ofNat_bounds hc))
  have hsplit3 : splitOnChar ':' (fmt0 2 (s : Int) ++ '.' :: fmt0 3 (ms : Int))
      = [fmt0 2 (s : Int) ++ '.' :: fmt0 3 (ms : Int)] := by
    apply splitOnChar_of_not_mem
    intro c hc
    rcases List.mem_append.mp hc with h1 | h2
    · exact digit_ne_colon (fmt0_ofNat_bounds h1)
    · rcases List.mem_cons.mp h2 with h3 | h4
      · subst h3; decide
      · exact digit_ne_colon (fmt0_ofNat_bounds h4)
  have hsplit4 : splitOnChar '.' (fmt0 2 (s : Int) ++ '.' :: fmt0 3 (ms : Int))
      = fmt0 2 (s : Int) :: splitOnChar '.' (fmt0 3 (ms : Int)) :=
    splitOnChar_append_sep (fun c hc => digit_ne_dot (fmt0_ofNat_bounds hc))
  have hsplit5 : splitOnChar '.' (fmt0 3 (ms : Int)) = [fmt0 3 (ms : Int)] :=
    splitOnChar_of_not_mem (fun c hc => digit_ne_dot (fmt0_ofNat_bounds hc))
  rw [parse_fields, hsplit1, hsplit2, hsplit3]
  simp [parseInt_fmt0, hsplit4, hsplit5, millisecClamp_small hms, parseInt_leftPad]

theorem format_parse_core (a b : Nat) (hb : b < 1000) :
    parse_timeL (format_timeL ((a : ℚ) + (b : ℚ) / 1000))
      = some ((a : ℚ) + (b : ℚ) / 1000) := by
  have hq : (0 : ℚ) ≤ (a : ℚ) + (b : ℚ) / 1000 := by positivity
  have hts : pyTrunc ((a : ℚ) + (b : ℚ) / 1000) = (a : ℤ) := pyTrunc_add_div_1000 a b hb
  have harg : (((a : ℚ) + (b : ℚ) / 1000) - (((a : ℕ) : ℤ) : ℚ)) * 1000 = ((b : ℕ) : ℚ) := by
    push_cast
    ring
  have hE : format_timeL ((a : ℚ) + (b : ℚ) / 1000)
      = fmt0 2 ((a / 3600 : ℕ) : ℤ) ++ ':' :: (fmt0 2 ((a % 3600 / 60 : ℕ) : ℤ) ++ ':' ::
        (fmt0 2 ((a % 60 : ℕ) : ℤ) ++ '.' :: fmt0 3 ((b : ℕ) : ℤ))) := by
    simp only [format_timeL]
    rw [if_neg (not_lt.mpr hq)]
    rw [hts, harg, pyTrunc_natCast]
    rw [int_fmod_cast_3600, int_fdiv_cast_3600, int_fdiv_cast_60, int_fmod_cast_60]
    simp [List.cons_append, List.append_assoc]
  rw [hE, parse_timeL, parse_fields_display _ _ _ _ hb]
  simp only [Option.map]
  congr 1
  have hz : ((a / 3600 : ℕ) : ℤ) * 3600 + ((a % 3600 / 60 : ℕ) : ℤ) * 60 +
      ((a % 60 : ℕ) : ℤ) = (a : ℤ) := by omega
  rw [hz]
  push_cast
  ring

/-! ### Claim theorems: Time Codec -/

/-- C2: for every duration `d = k/1000` with `0 ≤ d ≤ 359999.999`
representable at millisecond resolution, `parse_time (format_time d) = d`
exactly.  (The proof factors through `format_parse_core`; the upper bound of
the claim is kept as a hypothesis although the round trip needs no bound.) -/
theorem C2_decode_encode_roundtrip (k : Nat) (_hk : k ≤ 359999999) :
    parse_time (format_time ((k : ℚ) / 1000)) = some ((k : ℚ) / 1000) := by
  have hk' : (1000 * (k / 1000) + k % 1000 : ℕ) = k := Nat.div_add_mod k 1000
  have hd : (k : ℚ) / 1000 = ((k / 1000 : ℕ) : ℚ) + ((k % 1000 : ℕ) : ℚ) / 1000 := by
    calc (k : ℚ) / 1000
        = ((1000 * (k / 1000) + k % 1000 : ℕ) : ℚ) / 1000 := by rw [hk']
      _ = ((k / 1000 : ℕ) : ℚ) + ((k % 1000 : ℕ) : ℚ) / 1000 := by push_cast; ring
  rw [hd]
  show parse_timeL (format_timeL _) = _
  exact format_parse_core (k / 1000) (k % 1000) (Nat.mod_lt _ (by norm_num))

/-- Witness for C2 at `d = 3723.456` (that is, `01:02:03.456`). -/
theorem C2_decode_encode_roundtrip_witness :
    parse_time (format_time (((3723456 : ℕ) : ℚ) / 1000))
      = some (((3723456 : ℕ) : ℚ) / 1000) :=
  C2_decode_encode_roundtrip 3723456 (by norm_num)

/-- C10: `parse_time` validates neither the width, the range, nor the sign of
the numeric fields: `"0:0:75"` (unpadded, seconds ≥ 60) parses to `75.0`, and
`"00:-1:00.000"` parses to the negative value `-60.0`. -/
theorem C10_decode_no_range_validation :
    parse_time "0:0:75" = some 75 ∧ parse_time "00:-1:00.000" = some (-60) := by
  constructor
  · have h : parse_fields ("0:0:75").data = some (0, 0, 75, 0) := by decide
    simp [parse_time, parse_timeL, h]
  · have h : parse_fields ("00:-1:00.000").data = some (0, -1, 0, 0) := by decide
    simp [parse_time, parse_timeL, h]

/-- C5 counterexample: the claim says `decode("12:00:01.4")` carries 400 ms;
the code zero-pads the fractional field on the LEFT (`f"{4:03}" = "004"`), so
the result carries 4 ms: `43201.004`, not `43201.400`. -/
theorem C5_counterexample :
    parse_time "12:00:01.4" = some (43201 + (4 : ℚ) / 1000) ∧
      parse_time "12:00:01.4" ≠ some (43201 + (400 : ℚ) / 1000) := by
  have h : parse_fields ("12:00:01.4").data = some (12, 0, 1, 4) := by decide
  constructor
  · simp [parse_time, parse_timeL, h]
    norm_num
  · simp [parse_time, parse_timeL, h]
    norm_num

/-- C5 (amended): digits beyond the third are truncated (not rounded), so
`decode("00:00:01.45678") = 1.456`; a shorter suffix is parsed as an integer
and zero-padded on the LEFT to 3 digits, so `decode("12:00:01.4")` carries
4 ms, not 400 ms. -/
theorem C5_fractional_field_truncate :
    parse_time "00:00:01.45678" = some ((1456 : ℚ) / 1000) ∧
      parse_time "12:00:01.4" = some (43201 + (4 : ℚ) / 1000) := by
  constructor
  · have h : parse_fields ("00:00:01.45678").data = some (0, 0, 1, 456) := by decide
    simp [parse_time, parse_timeL, h]
    norm_num
  · have h : parse_fields ("12:00:01.4").data = some (12, 0, 1, 4) := by decide
    simp [parse_time, parse_timeL, h]
    norm_num

theorem update_start_slider_spec (st : RangeState) (v : ℚ) :
    (update_start_time_from_slider st v).duration_seconds = st.duration_seconds ∧
    (update_start_time_from_slider st v).end_seconds = st.end_seconds ∧
    (update_start_time_from_slider st v).start_seconds =
      (if v ≥ st.end_seconds then
        (if st.end_seconds - 0.001 < 0 then 0 else st.end_seconds - 0.001)
      else v) := by
  simp [update_start_time_from_slider]

theorem update_end_slider_spec (st : RangeState) (v : ℚ) :
    (update_end_time_from_slider st v).duration_seconds = st.duration_seconds ∧
    (update_end_time_from_slider st v).start_seconds = st.start_seconds ∧
    (update_end_time_from_slider st v).end_seconds =
      (if v ≤ st.start_seconds then
        (if st.start_seconds + 0.001 > st.duration_seconds then st.duration_seconds
         else st.start_seconds + 0.001)
      else v) := by
  simp [update_end_time_from_slider]

theorem update_times_from_entry_spec (st : RangeState) (s_str e_str : String) :
    (update_times_from_entry st s_str e_str).duration_seconds = st.duration_seconds ∧
    ((update_times_from_entry st s_str e_str).start_seconds =
      match parse_time s_str with
      | some ns => if 0 ≤ ns ∧ ns ≤ st.duration_seconds then ns else st.start_seconds
      | none => st.start_seconds) ∧
    ((update_times_from_entry st s_str e_str).end_seconds =
      match parse_time e_str with
      | some ne => if 0 ≤ ne ∧ ne ≤ st.duration_seconds then ne else st.end_seconds
      | none => st.end_seconds) := by
  rcases hs : parse_time s_str with _ | ns <;> rcases he : parse_time e_str with _ | ne <;>
    simp_all [update_times_from_entry] <;> split_ifs <;> simp_all

/-- C7 counterexample: the claim says the value is clamped into
`[0, mediaDuration]`; with duration 100, start 10, end 50 the slider value
`-5` is stored verbatim as a negative start, so no clamping happens. -/
theorem C7_counterexample :
    (update_start_time_from_slider ⟨100, 10, 50⟩ (-5)).start_seconds = -5 ∧
      ¬ (0 ≤ (update_start_time_from_slider ⟨100, 10, 50⟩ (-5)).start_seconds) := by
  have h := update_start_slider_spec ⟨100, 10, 50⟩ (-5)
  rw [h.2.2, if_neg (by norm_num)]
  norm_num

/-- C7 (amended): `update_start_time_from_slider` does not clamp its value
into `[0, mediaDuration]`: any `v < end` is stored as-is (even a negative
one); only `v ≥ end` is pulled to `end - 0.001` clamped to `≥ 0`.  Afterwards
`start < end` holds and `end` (and the duration) are unchanged. -/
theorem C7_start_slider (st : RangeState) (v : ℚ)
    (h0 : 0 ≤ st.start_seconds) (h1 : st.start_seconds < st.end_seconds) :
    (update_start_time_from_slider st v).end_seconds = st.end_seconds ∧
    (update_start_time_from_slider st v).duration_seconds = st.duration_seconds ∧
    (update_start_time_from_slider st v).start_seconds <
      (update_start_time_from_slider st v).end_seconds ∧
    (v < st.end_seconds → (update_start_time_from_slider st v).start_seconds = v) ∧
    (st.end_seconds ≤ v → (update_start_time_from_slider st v).start_seconds =
      (if st.end_seconds - 0.001 < 0 then 0 else st.end_seconds - 0.001)) := by
  obtain ⟨hd, he, hs⟩ := update_start_slider_spec st v
  refine ⟨he, hd, ?_, ?_, ?_⟩
  · rw [hs, he]
    split_ifs <;> linarith
  · intro hv
    rw [hs, if_neg (by linarith)]
  · intro hv
    rw [hs, if_pos (by linarith)]

/-- Witness for C7 at the claim's example: duration 100, end 100, value 100:
the auto-adjustment fires (`start < end`) and `end` stays 100. -/
theorem C7_start_slider_witness :
    (update_start_time_from_slider ⟨100, 0, 100⟩ 100).end_seconds = 100 ∧
      (update_start_time_from_slider ⟨100, 0, 100⟩ 100).start_seconds <
        (update_start_time_from_slider ⟨100, 0, 100⟩ 100).end_seconds := by
  have h := C7_start_slider ⟨100, 0, 100⟩ 100 (by norm_num) (by norm_num)
  exact ⟨h.1, h.2.2.1⟩

/-- C4 counterexample: from the freshly initialised state of duration 10,
committing the texts start `00:00:05.000` and end `00:00:03.000` is accepted
by `update_times_from_entry` and leaves `start = 5 > 3 = end`, breaking the
claimed invariant `start < end`. -/
theorem C4_counterexample :
    ¬ rangeInv (update_times_from_entry (init_range_state 10)
        "00:00:05.000" "00:00:03.000") := by
  have h5 : parse_time "00:00:05.000" = some 5 := by
    have h : parse_fields ("00:00:05.000").data = some (0, 0, 5, 0) := by decide
    simp [parse_time, parse_timeL, h]
  have h3 : parse_time "00:00:03.000" = some 3 := by
    have h : parse_fields ("00:00:03.000").data = some (0, 0, 3, 0) := by decide
    simp [parse_time, parse_timeL, h]
  obtain ⟨hd, hs, he⟩ := update_times_from_entry_spec (init_range_state 10)
    "00:00:05.000" "00:00:03.000"
  rw [h5] at hs
  rw [h3] at he
  norm_num [init_range_state] at hs he
  rw [rangeInv]
  intro hinv
  rw [init_range_state] at hinv
  rw [hs, he] at hinv
  exact absurd hinv.2.1 (by norm_num)

/-- C4 (amended): with `mediaDuration > 0`, the invariant
`0 ≤ start < end ≤ mediaDuration` holds after initialisation and is preserved
by both slider updates (for slider values in the widget range); a committed
text edit preserves only the bound conditions `0 ≤ start ≤ mediaDuration` and
`0 ≤ end ≤ mediaDuration` — the ordering `start < end` is not preserved by
text edits (see the counterexample) and is re-checked only at validation. -/
theorem C4_invariant_amended :
    (∀ D : ℚ, 0 < D → rangeInv (init_range_state D)) ∧
    (∀ (st : RangeState) (v : ℚ), rangeInv st → 0 ≤ v →
        rangeInv (update_start_time_from_slider st v)) ∧
    (∀ (st : RangeState) (v : ℚ), rangeInv st → v ≤ st.duration_seconds →
        rangeInv (update_end_time_from_slider st v)) ∧
    (∀ (st : RangeState) (s_str e_str : String), rangeInv st →
        (0 ≤ (update_times_from_entry st s_str e_str).start_seconds ∧
         (update_times_from_entry st s_str e_str).start_seconds ≤ st.duration_seconds ∧
         0 ≤ (update_times_from_entry st s_str e_str).end_seconds ∧
         (update_times_from_entry st s_str e_str).end_seconds ≤ st.duration_seconds)) := by
  refine ⟨?_, ?_, ?_, ?_⟩
  · intro D hD
    exact ⟨le_refl 0, hD, le_refl D⟩
  · intro st v hinv hv
    obtain ⟨h0, h1, h2⟩ := hinv
    obtain ⟨hd, he, hs⟩ := update_start_slider_spec st v
    rw [rangeInv, hd, he, hs]
    split_ifs with hge hneg
    · exact ⟨le_refl 0, by linarith, h2⟩
    · exact ⟨by linarith, by linarith, h2⟩
    · exact ⟨hv, by linarith, h2⟩
  · intro st v hinv hv
    obtain ⟨h0, h1, h2⟩ := hinv
    obtain ⟨hd, hs, he⟩ := update_end_slider_spec st v
    rw [rangeInv, hd, hs, he]
    split_ifs with hle hcap
    · exact ⟨h0, by linarith, le_refl _⟩
    · exact ⟨h0, by linarith, by linarith⟩
    · exact ⟨h0, by linarith, hv⟩
  · intro st s_str e_str hinv
    obtain ⟨h0, h1, h2⟩ := hinv
    obtain ⟨hd, hs, he⟩ := update_times_from_entry_spec st s_str e_str
    rw [hs, he]
    rcases parse_time s_str with _ | ns <;> rcases parse_time e_str with _ | ne <;>
      simp only [] <;> (try split_ifs) <;>
      exact ⟨by linarith, by linarith, by linarith, by linarith⟩

/-- Witness for C4 at duration 10: the invariant holds after initialisation
and after a start-slider move to 10. -/
theorem C4_invariant_amended_witness :
    rangeInv (init_range_state 10) ∧
      rangeInv (update_start_time_from_slider (init_range_state 10) 10) :=
  ⟨C4_invariant_amended.1 10 (by norm_num),
   C4_invariant_amended.2.1 (init_range_state 10)
     10 (C4_invariant_amended.1 10 (by norm_num)) (by norm_num)⟩

/-- C8: a text edit is accepted for a bound iff it decodes and the decoded
value lies in `[0, mediaDuration]`; otherwise that bound keeps its previous
value.  Each bound is decided independently of the other, so an accepted
edit never auto-adjusts the counterpart bound, and the duration is
untouched. -/
theorem C8_text_edit_reject_accept (st : RangeState) (s_str e_str : String) :
    (update_times_from_entry st s_str e_str).duration_seconds = st.duration_seconds ∧
    ((update_times_from_entry st s_str e_str).start_seconds =
      match parse_time s_str with
      | some ns => if 0 ≤ ns ∧ ns ≤ st.duration_seconds then ns else st.start_seconds
      | none => st.start_seconds) ∧
    ((update_times_from_entry st s_str e_str).end_seconds =
      match parse_time e_str with
      | some ne => if 0 ≤ ne ∧ ne ≤ st.duration_seconds then ne else st.end_seconds
      | none => st.end_seconds) :=
  update_times_from_entry_spec st s_str e_str

/-- C9: `validate_inputs` succeeds iff `start < end` strictly and both
bounds lie within `[0, mediaDuration]`; when `start = end` it fails with the
error message naming the ordering invariant (start must be before end). -/
theorem C9_validate_iff (st : RangeState) :
    (validate_inputs st = Except.ok () ↔
      (st.start_seconds < st.end_seconds ∧ 0 ≤ st.start_seconds ∧
       st.start_seconds ≤ st.duration_seconds ∧ 0 ≤ st.end_seconds ∧
       st.end_seconds ≤ st.duration_seconds)) ∧
    (st.start_seconds = st.end_seconds →
      validate_inputs st = Except.error ("Start time (" ++ format_time st.start_seconds ++
        ") must be before end time (" ++ format_time st.end_seconds ++ ").")) := by
  rw [validate_inputs]
  split_ifs with hge hout
  · constructor
    · constructor
      · intro h
        exact absurd h (by simp)
      · intro h
        linarith [h.1]
    · intro _
      rfl
  · push_neg at hge
    constructor
    · constructor
      · intro h
        exact absurd h (by simp)
      · intro h
        rcases hout with h1 | h2
        · linarith [h.2.1]
        · linarith [h.2.2.2.2]
    · intro heq
      linarith
  · push_neg at hge hout
    constructor
    · constructor
      · intro _
        exact ⟨hge, hout.1, by linarith, by linarith, hout.2⟩
      · intro _
        rfl
    · intro heq
      linarith

/-- Witness for C9 at duration 10 with `start = end = 5`: validation fails
with the ordering message. -/
theorem C9_validate_iff_witness :
    validate_inputs ⟨10, 5, 5⟩ = Except.error ("Start time (" ++ format_time (5 : ℚ) ++
      ") must be before end time (" ++ format_time (5 : ℚ) ++ ").") :=
  (C9_validate_iff ⟨10, 5, 5⟩).2 rfl

/-- C1 counterexample: with the copy attempt exiting 1 (where the claim
promises a second re-encode process and a `CutOutcome` with
`succeeded = usedFallback = true` if it exits 0), the code spawns exactly ONE
process and raises `Exception("FFmpeg process failed")` — there is no second
spawn and no fallback outcome. -/
theorem C1_counterexample :
    (run_ffmpeg_cut "in.mp4" "out.mp4" 10 20 50 1).spawned.length = 1 ∧
      (run_ffmpeg_cut "in.mp4" "out.mp4" 10 20 50 1).outcome
        = Except.error "FFmpeg process failed" := by
  constructor
  · rfl
  · rw [run_ffmpeg_cut]
    norm_num

/-- C1 (amended): `run_ffmpeg_cut` spawns exactly one external process (the
single command built by `ffmpeg_cut_command`); it returns normally iff that
process exits 0, and raises `Exception("FFmpeg process failed")` on any
non-zero exit.  No fallback attempt exists. -/
theorem C1_single_attempt_no_fallback (i o : String) (s e : ℚ) (q code : ℤ) :
    (run_ffmpeg_cut i o s e q code).spawned = [ffmpeg_cut_command i o s e q] ∧
    ((run_ffmpeg_cut i o s e q code).outcome = Except.ok () ↔ code = 0) ∧
    (code ≠ 0 → (run_ffmpeg_cut i o s e q code).outcome
        = Except.error "FFmpeg process failed") := by
  refine ⟨rfl, ?_, ?_⟩
  · rw [run_ffmpeg_cut]
    by_cases h : code = 0
    · simp [h]
    · simp [h]
  · intro h
    rw [run_ffmpeg_cut]
    simp [h]

/-- Witness for C1 at exit code 2: the outcome is the raised error. -/
theorem C1_single_attempt_no_fallback_witness :
    (run_ffmpeg_cut "a.mp4" "b.mp4" 0 5 80 2).outcome
      = Except.error "FFmpeg process failed" :=
  (C1_single_attempt_no_fallback "a.mp4" "b.mp4" 0 5 80 2).2.2 (by norm_num)

/-- C3 counterexample: in the concrete invocation for `in.mp4 → out.mp4`,
the source flag `-i` sits at index 2 and the seek-start flag `-ss` at
index 4 — the reverse of the claimed order — and the stream-copy tokens
`-c`, `-avoid_negative_ts`, `-to` never occur. -/
theorem C3_counterexample :
    ((ffmpeg_cut_command "in.mp4" "out.mp4" 10 20 50).getD 2 (CmdTok.str "")
        = CmdTok.str "-i") ∧
    ((ffmpeg_cut_command "in.mp4" "out.mp4" 10 20 50).getD 4 (CmdTok.str "")
        = CmdTok.str "-ss") ∧
    CmdTok.str "-avoid_negative_ts" ∉ ffmpeg_cut_command "in.mp4" "out.mp4" 10 20 50 ∧
    CmdTok.str "-c" ∉ ffmpeg_cut_command "in.mp4" "out.mp4" 10 20 50 ∧
    CmdTok.str "-to" ∉ ffmpeg_cut_command "in.mp4" "out.mp4" 10 20 50 := by
  refine ⟨rfl, rfl, ?_, ?_, ?_⟩ <;> decide

/-- C3 (amended): every constructed invocation has length 15 and the shape
`ffmpeg -y -i <src> -ss <start> -t <end-start> -c:v <vc> -crf <q> -c:a <ac>
<dst>`: the seek-start flag comes AFTER the source flag, the end bound is a
`-t` duration rather than `-to`, and `-avoid_negative_ts` (hence the claimed
stream-copy form) never occurs. -/
theorem C3_command_shape (i o : String) (s e : ℚ) (q : ℤ)
    (hi : i ≠ "-avoid_negative_ts") (ho : o ≠ "-avoid_negative_ts") :
    ((ffmpeg_cut_command i o s e q).length = 15) ∧
    ((ffmpeg_cut_command i o s e q).getD 0 (CmdTok.str "") = CmdTok.str "ffmpeg") ∧
    ((ffmpeg_cut_command i o s e q).getD 1 (CmdTok.str "") = CmdTok.str "-y") ∧
    ((ffmpeg_cut_command i o s e q).getD 2 (CmdTok.str "") = CmdTok.str "-i") ∧
    ((ffmpeg_cut_command i o s e q).getD 3 (CmdTok.str "") = CmdTok.str i) ∧
    ((ffmpeg_cut_command i o s e q).getD 4 (CmdTok.str "") = CmdTok.str "-ss") ∧
    ((ffmpeg_cut_command i o s e q).getD 5 (CmdTok.str "") = CmdTok.num s) ∧
    ((ffmpeg_cut_command i o s e q).getD 6 (CmdTok.str "") = CmdTok.str "-t") ∧
    ((ffmpeg_cut_command i o s e q).getD 7 (CmdTok.str "") = CmdTok.num (e - s)) ∧
    CmdTok.str "-avoid_negative_ts" ∉ ffmpeg_cut_command i o s e q := by
  refine ⟨by rw [ffmpeg_cut_command]; rfl, by rw [ffmpeg_cut_command]; rfl, by rw [ffmpeg_cut_command]; rfl,
    by rw [ffmpeg_cut_command]; rfl, by rw [ffmpeg_cut_command]; rfl, by rw [ffmpeg_cut_command]; rfl,
    by rw [ffmpeg_cut_command]; rfl, by rw [ffmpeg_cut_command]; rfl, by rw [ffmpeg_cut_command]; rfl, ?_⟩
  rw [ffmpeg_cut_command]
  intro hmem
  simp only [List.mem_cons, List.not_mem_nil, or_false] at hmem
  rcases hmem with h|h|h|h|h|h|h|h|h|h|h|h|h|h|h
  all_goals first
    | (rw [CmdTok.str.injEq] at h; split_ifs at h <;> simp at h)
    | (rw [CmdTok.str.injEq] at h; exact hi h.symm)
    | (rw [CmdTok.str.injEq] at h; exact ho h.symm)
    | simp at h

/-- Witness for C3 on the concrete `in.mp4 → out.mp4` command. -/
theorem C3_command_shape_witness :
    ((ffmpeg_cut_command "in.mp4" "out.mp4" 10 20 50).getD 2 (CmdTok.str "")
        = CmdTok.str "-i") ∧
      ((ffmpeg_cut_command "in.mp4" "out.mp4" 10 20 50).getD 4 (CmdTok.str "")
        = CmdTok.str "-ss") ∧
      CmdTok.str "-avoid_negative_ts" ∉ ffmpeg_cut_command "in.mp4" "out.mp4" 10 20 50 := by
  have h := C3_command_shape "in.mp4" "out.mp4" 10 20 50 (by decide) (by decide)
  exact ⟨h.2.2.2.1, h.2.2.2.2.2.1, h.2.2.2.2.2.2.2.2.2⟩

theorem isPrefixOf_append_self (sep r : List Char) :
    sep.isPrefixOf (sep ++ r) = true := by
  induction sep with
  | nil => simp [List.isPrefixOf]
  | cons c cs ih => simp [List.isPrefixOf, ih]

theorem hasSubstr_mid (sep pre r : List Char) (hsep : sep ≠ []) :
    hasSubstr sep (pre ++ (sep ++ r)) = true := by
  induction pre with
  | nil =>
    rw [List.nil_append]
    obtain ⟨c, cs, hcons⟩ := List.exists_cons_of_ne_nil hsep
    rw [hcons, List.cons_append, hasSubstr, ← List.cons_append, ← hcons]
    rw [isPrefixOf_append_self]
    rfl
  | cons c pre' ih =>
    rw [List.cons_append, hasSubstr, ih]
    simp

theorem splitOnListAux_ne_nil (sep : List Char) :
    ∀ fuel l, splitOnListAux sep fuel l ≠ [] := by
  intro fuel l
  match fuel, l with
  | _, [] => simp [splitOnListAux]
  | 0, c :: cs => simp [splitOnListAux]
  | f + 1, c :: cs =>
    rw [splitOnListAux]
    split_ifs
    · simp
    · cases splitOnListAux sep f cs <;> simp

theorem splitOnListAux_fuel_irrel (sep : List Char) (hsep : sep ≠ []) :
    ∀ f1 f2 l, l.length ≤ f1 → l.length ≤ f2 →
      splitOnListAux sep f1 l = splitOnListAux sep f2 l := by
  intro f1
  induction f1 with
  | zero =>
    intro f2 l h1 _
    have hnil : l = [] := by
      cases l with
      | nil => rfl
      | cons c cs => simp at h1
    subst hnil
    cases f2 <;> rfl
  | succ g1 ih =>
    intro f2 l h1 h2
    cases l with
    | nil => cases f2 <;> rfl
    | cons c cs =>
      cases f2 with
      | zero => simp at h2
      | succ g2 =>
        have hs : 1 ≤ sep.length := by
          obtain ⟨x, xs, hx⟩ := List.exists_cons_of_ne_nil hsep
          rw [hx]
          simp
        simp only [List.length_cons] at h1 h2
        rw [splitOnListAux, splitOnListAux]
        by_cases hp : sep.isPrefixOf (c :: cs) = true
        · rw [if_pos hp, if_pos hp]
          congr 1
          apply ih
          · simp only [List.length_drop, List.length_cons]
            omega
          · simp only [List.length_drop, List.length_cons]
            omega
        · rw [if_neg hp, if_neg hp]
          rw [ih g2 cs (by omega) (by omega)]

theorem splitOnListAux_cons_ne (fuel : Nat) (c : Char) (cs : List Char) (hc : c ≠ 't') :
    splitOnListAux (("time=").data) (fuel + 1) (c :: cs) =
      match splitOnListAux (("time=").data) fuel cs with
      | [] => [[c]]
      | h :: t => (c :: h) :: t := by
  have hbeq : ('t' == c) = false := beq_eq_false_iff_ne.mpr (fun h => hc h.symm)
  have hp : (("time=").data).isPrefixOf (c :: cs) = false := by
    show (('t' :: ("ime=").data)).isPrefixOf (c :: cs) = false
    simp [List.isPrefixOf, hbeq]
  rw [splitOnListAux, if_neg (by simp [hp])]

theorem splitOnListAux_head_no_t :
    ∀ (l : List Char), (∀ c ∈ l, c ≠ 't') → ∀ (fuel : Nat) (r : List Char),
      (l ++ r).length ≤ fuel →
      (splitOnListAux (("time=").data) fuel (l ++ r)).headI
        = l ++ (splitOnListAux (("time=").data) r.length r).headI := by
  intro l
  induction l with
  | nil =>
    intro _ fuel r hlen
    rw [List.nil_append, List.nil_append]
    rw [splitOnListAux_fuel_irrel _ (by decide) fuel r.length r (by simpa using hlen) le_rfl]
  | cons c l' ih =>
    intro hno fuel r hlen
    have hc : c ≠ 't' := hno c (List.mem_cons_self _ _)
    cases fuel with
    | zero => simp at hlen
    | succ f =>
      rw [List.cons_append, splitOnListAux_cons_ne f c (l' ++ r) hc]
      have hrec := ih (fun x hx => hno x (List.mem_cons_of_mem _ hx)) f r
        (by simp at hlen ⊢; omega)
      obtain ⟨h, t, hht⟩ := List.exists_cons_of_ne_nil
        (splitOnListAux_ne_nil (("time=").data) f (l' ++ r))
      rw [hht]
      rw [hht] at hrec
      simp only [List.headI] at hrec ⊢
      rw [hrec]
      rfl

theorem splitOnListAux_skips_pre :
    ∀ (pre : List Char), (∀ c ∈ pre, c ≠ 't') → ∀ (fuel : Nat) (tail : List Char),
      (pre ++ (("time=").data ++ tail)).length ≤ fuel →
      splitOnListAux (("time=").data) fuel (pre ++ (("time=").data ++ tail))
        = pre :: splitOnListAux (("time=").data) tail.length tail := by
  intro pre
  induction pre with
  | nil =>
    intro _ fuel tail hlen
    rw [List.nil_append]
    rw [List.nil_append, List.length_append] at hlen
    have h5 : (("time=").data).length = 5 := by decide
    cases fuel with
    | zero => omega
    | succ f =>
      have hcons : ("time=").data ++ tail = 't' :: (("ime=").data ++ tail) := rfl
      rw [hcons, splitOnListAux]
      rw [if_pos (by rw [← hcons]; simp [isPrefixOf_append_self])]
      rw [← hcons, List.drop_left]
      congr 1
      exact splitOnListAux_fuel_irrel _ (by decide) f tail.length tail (by omega) le_rfl
  | cons c pre' ih =>
    intro hno fuel tail hlen
    have hc : c ≠ 't' := hno c (List.mem_cons_self _ _)
    cases fuel with
    | zero => simp at hlen
    | succ f =>
      rw [List.cons_append, splitOnListAux_cons_ne f c _ hc]
      rw [ih (fun x hx => hno x (List.mem_cons_of_mem _ hx)) f tail
        (by simp at hlen ⊢; omega)]

theorem format_timeL_display (a b : Nat) (hb : b < 1000) :
    format_timeL ((a : ℚ) + (b : ℚ) / 1000)
      = fmt0 2 ((a / 3600 : ℕ) : ℤ) ++ ':' :: (fmt0 2 ((a % 3600 / 60 : ℕ) : ℤ) ++ ':' ::
        (fmt0 2 ((a % 60 : ℕ) : ℤ) ++ '.' :: fmt0 3 ((b : ℕ) : ℤ))) := by
  have hq : (0 : ℚ) ≤ (a : ℚ) + (b : ℚ) / 1000 := by positivity
  have hts : pyTrunc ((a : ℚ) + (b : ℚ) / 1000) = (a : ℤ) := pyTrunc_add_div_1000 a b hb
  have harg : (((a : ℚ) + (b : ℚ) / 1000) - (((a : ℕ) : ℤ) : ℚ)) * 1000 = ((b : ℕ) : ℚ) := by
    push_cast
    ring
  simp only [format_timeL]
  rw [if_neg (not_lt.mpr hq)]
  rw [hts, harg, pyTrunc_natCast]
  rw [int_fmod_cast_3600, int_fdiv_cast_3600, int_fdiv_cast_60, int_fmod_cast_60]
  simp [List.cons_append, List.append_assoc]

theorem display_chars {h m s ms : Nat} :
    ∀ c ∈ fmt0 2 (h : ℤ) ++ ':' :: (fmt0 2 (m : ℤ) ++ ':' ::
        (fmt0 2 (s : ℤ) ++ '.' :: fmt0 3 (ms : ℤ))),
      (48 ≤ c.toNat ∧ c.toNat ≤ 57) ∨ c = ':' ∨ c = '.' := by
  intro c hc
  rcases List.mem_append.mp hc with h1 | h2
  · exact Or.inl (fmt0_ofNat_bounds h1)
  · rcases List.mem_cons.mp h2 with h3 | h4
    · exact Or.inr (Or.inl h3)
    · rcases List.mem_append.mp h4 with h5 | h6
      · exact Or.inl (fmt0_ofNat_bounds h5)
      · rcases List.mem_cons.mp h6 with h7 | h8
        · exact Or.inr (Or.inl h7)
        · rcases List.mem_append.mp h8 with h9 | h10
          · exact Or.inl (fmt0_ofNat_bounds h9)
          · rcases List.mem_cons.mp h10 with h11 | h12
            · exact Or.inr (Or.inr h11)
            · exact Or.inl (fmt0_ofNat_bounds h12)

theorem display_char_ne_t {c : Char}
    (hc : (48 ≤ c.toNat ∧ c.toNat ≤ 57) ∨ c = ':' ∨ c = '.') : c ≠ 't' := by
  rcases hc with hd | hcolon | hdot
  · exact char_ne_of_toNat (by
      have : ('t').toNat = 116 := by decide
      omega)
  · subst hcolon; decide
  · subst hdot; decide

theorem display_char_not_ws {c : Char}
    (hc : (48 ≤ c.toNat ∧ c.toNat ≤ 57) ∨ c = ':' ∨ c = '.') : isWs c = false := by
  rcases hc with hd | hcolon | hdot
  · simp only [isWs, Bool.or_eq_false_iff, decide_eq_false_iff_not]
    have h32 : (' ').toNat = 32 := by decide
    have h9 : ('\t').toNat = 9 := by decide
    have h10 : ('\n').toNat = 10 := by decide
    have h13 : ('\r').toNat = 13 := by decide
    have h11 : ('\x0b').toNat = 11 := by decide
    have h12 : ('\x0c').toNat = 12 := by decide
    refine ⟨⟨⟨⟨⟨?_, ?_⟩, ?_⟩, ?_⟩, ?_⟩, ?_⟩ <;> exact char_ne_of_toNat (by omega)
  · subst hcolon; decide
  · subst hdot; decide

theorem get_bang_one (pre : List Char) (rest : List (List Char)) (h : rest ≠ []) :
    (pre :: rest).get! 1 = rest.headI := by
  obtain ⟨x, xs, hx⟩ := List.exists_cons_of_ne_nil h
  rw [hx]
  rfl

theorem takeWhile_token :
    ∀ (tok : List Char), (∀ c ∈ tok, isWs c = false) → ∀ v : List Char,
      (tok ++ ' ' :: v).takeWhile (fun c => !isWs c) = tok := by
  intro tok
  induction tok with
  | nil =>
    intro _ v
    rw [List.nil_append, List.takeWhile_cons]
    simp [show isWs ' ' = true from by decide]
  | cons c t' ih =>
    intro hws v
    rw [List.cons_append, List.takeWhile_cons]
    simp only [hws c (List.mem_cons_self _ _)]
    rw [ih (fun x hx => hws x (List.mem_cons_of_mem _ hx)) v]
    simp

theorem firstWsToken_token (tok v : List Char) (hws : ∀ c ∈ tok, isWs c = false)
    (hne : tok ≠ []) : firstWsToken (tok ++ ' ' :: v) = tok := by
  obtain ⟨c, t', hct⟩ := List.exists_cons_of_ne_nil hne
  rw [firstWsToken]
  rw [hct, List.cons_append, List.dropWhile_cons]
  simp only [hws c (hct ▸ List.mem_cons_self _ _)]
  rw [← List.cons_append, ← hct]
  simp only [Bool.false_eq_true, if_false]
  exact takeWhile_token tok hws v

/-- C6: a status line containing a `time=<DisplayTime>` token (the token
being `format_timeL (a + b/1000)` delimited by whitespace, after a prefix
free of the letter `t`) yields exactly the progress update
`min 1 (max 0 ((currentTime - start) / (end - start)))`; a line without the
`time=` token yields no update. -/
theorem C6_progress_line :
    (∀ (pre rest : List Char) (a b : Nat) (s e : ℚ),
        (∀ c ∈ pre, c ≠ 't') → b < 1000 →
        progress_update s (e - s)
            (pre ++ (("time=").data ++ (format_timeL ((a : ℚ) + (b : ℚ) / 1000) ++ ' ' :: rest)))
          = some (min 1 (max 0 ((((a : ℚ) + (b : ℚ) / 1000) - s) / (e - s))))) ∧
    (∀ (line : List Char) (s d : ℚ), hasSubstr (("time=").data) line = false →
        progress_update s d line = none) := by
  constructor
  · intro pre rest a b s e hpre hb
    have hdisp := format_timeL_display a b hb
    have hchars : ∀ c ∈ format_timeL ((a : ℚ) + (b : ℚ) / 1000),
        (48 ≤ c.toNat ∧ c.toNat ≤ 57) ∨ c = ':' ∨ c = '.' := by
      rw [hdisp]
      exact display_chars
    have hnt : ∀ c ∈ format_timeL ((a : ℚ) + (b : ℚ) / 1000), c ≠ 't' :=
      fun c hc => display_char_ne_t (hchars c hc)
    have hws : ∀ c ∈ format_timeL ((a : ℚ) + (b : ℚ) / 1000), isWs c = false :=
      fun c hc => display_char_not_ws (hchars c hc)
    have hne : format_timeL ((a : ℚ) + (b : ℚ) / 1000) ≠ [] := by
      rw [hdisp, fmt0_ofNat]
      intro hnil
      exact leftPad_ne_nil (List.append_eq_nil.mp hnil).1
    rw [progress_update]
    rw [if_pos (by
      rw [hasSubstr_mid _ _ _ (by decide)])]
    rw [splitOnList]
    rw [splitOnListAux_skips_pre pre hpre _ _ le_rfl]
    rw [get_bang_one _ _ (splitOnListAux_ne_nil _ _ _)]
    have hA : format_timeL ((a : ℚ) + (b : ℚ) / 1000) ++ ' ' :: rest
        = (format_timeL ((a : ℚ) + (b : ℚ) / 1000) ++ [' ']) ++ rest := by
      simp
    rw [hA]
    rw [splitOnListAux_head_no_t (format_timeL ((a : ℚ) + (b : ℚ) / 1000) ++ [' '])
      (by
        intro c hc
        rcases List.mem_append.mp hc with h1 | h2
        · exact hnt c h1
        · simp at h2
          subst h2
          decide)
      _ rest le_rfl]
    have hB : (format_timeL ((a : ℚ) + (b : ℚ) / 1000) ++ [' ']) ++
        (splitOnListAux (("time=").data) rest.length rest).headI
        = format_timeL ((a : ℚ) + (b : ℚ) / 1000) ++ ' ' ::
          (splitOnListAux (("time=").data) rest.length rest).headI := by
      simp
    rw [hB]
    rw [firstWsToken_token _ _ hws hne]
    simp only [format_parse_core a b hb]
  · intro line s d h
    rw [progress_update, if_neg (by simp [h])]

/-- Witness for C6 on the claim's example line
`frame=120 fps=30 time=00:00:05.000 bitrate=...` with start 0 and end 20:
the emitted progress is `1/4`. -/
theorem C6_progress_line_witness :
    progress_update 0 (20 - 0)
        (("frame=120 fps=30 ").data ++ (("time=").data ++
          (format_timeL (((5 : ℕ) : ℚ) + ((0 : ℕ) : ℚ) / 1000) ++ ' ' ::
            ("bitrate=128kbits").data)))
      = some (min 1 (max 0 (((((5 : ℕ) : ℚ) + ((0 : ℕ) : ℚ) / 1000) - 0) / (20 - 0)))) ∧
    min 1 (max 0 (((((5 : ℕ) : ℚ) + ((0 : ℕ) : ℚ) / 1000) - 0) / (20 - 0)))
      = 1 / 4 := by
  constructor
  · exact C6_progress_line.1 ("frame=120 fps=30 ").data ("bitrate=128kbits").data 5 0 0 20
      (by decide) (by norm_num)
  · push_cast
    norm_num
